import Mathlib

/-!
Shallow embedding of `mbutil.go` (package main of tomwa/mbtilego).

Go `float64` arithmetic is idealised as real-number arithmetic (`ℝ`),
the standard idealisation for the Web-Mercator projection formulas of
the source.  Go `int` is `ℤ`; a Go conversion `int(f)` of a float is
truncation toward zero (`goInt` below).  Byte slices are `List ℕ`.
-/

namespace Mbtilego

/-- Constant DEG_TO_RAD from mbutil.go line 19. -/
noncomputable def DEG_TO_RAD : ℝ := Real.pi / 180

/-- Constant DEFAULT_TILE_SIZE from mbutil.go line 23. -/
def DEFAULT_TILE_SIZE : ℝ := 256

/-- Constant MAX_ZOOM_LEVEL from mbutil.go line 24. -/
def MAX_ZOOM_LEVEL : ℤ := 19

/-- Function Round from mbutil.go lines 310-315: negative values via
math.Ceil(value - 0.5), other values via math.Floor(value + 0.5). -/
noncomputable def Round (value : ℝ) : ℝ :=
  if value < 0 then (⌈value - 0.5⌉ : ℤ) else (⌊value + 0.5⌋ : ℤ)

/-- Function minMax from mbutil.go lines 225-228: math.Min(math.Max(a, b), c). -/
noncomputable def minMax (a b c : ℝ) : ℝ := min (max a b) c

/-- Go conversion int(f) of a float64: truncation toward zero. -/
noncomputable def goInt (r : ℝ) : ℤ := if r < 0 then ⌈r⌉ else ⌊r⌋

/-- Value of the loop variable c in NewProjection (mbutil.go lines 259-268)
at the start of iteration i: c begins at DEFAULT_TILE_SIZE = 256 and is
doubled once per iteration. -/
noncomputable def cSeq : ℕ → ℝ
  | 0 => 256
  | n + 1 => cSeq n * 2

/-- Entry i of proj.Bc, appended as c/360.0 in iteration i of the
NewProjection loop (mbutil.go line 263).  The loop is input-independent,
so the table is modelled as a function of the index. -/
noncomputable def Bc (i : ℕ) : ℝ := cSeq i / 360

/-- Entry i of proj.Cc, appended as c/(2.0*math.Pi) (mbutil.go line 264). -/
noncomputable def Cc (i : ℕ) : ℝ := cSeq i / (2 * Real.pi)

/-- Entry i of proj.Zc, appended as the pair (e, e) with e = c/2.0
(mbutil.go lines 262, 265). -/
noncomputable def Zc (i : ℕ) : ℝ × ℝ := (cSeq i / 2, cSeq i / 2)

/-- Entry i of proj.Ac, appended as c (mbutil.go line 266). -/
noncomputable def Ac (i : ℕ) : ℝ := cSeq i

/-- Struct Tile from mbutil.go lines 33-36. -/
structure Tile where
  z : ℤ
  x : ℤ
  y : ℤ
  Content : List ℕ
  deriving DecidableEq, Repr

/-- Struct Projection from mbutil.go lines 246-251, keeping the bounding
box and the zoom-level list (the four numeric tables are the
input-independent functions Bc, Cc, Zc, Ac above). -/
structure Projection where
  xmin : ℝ
  ymin : ℝ
  xmax : ℝ
  ymax : ℝ
  levels : List ℤ

/-- List of the integers a, a+1, ..., b (empty when b < a): the values
taken by a Go loop for i := a; i <= b; i++. -/
def intRange (a b : ℤ) : List ℤ :=
  (List.range (b + 1 - a).toNat).map (fun k : ℕ => a + (k : ℤ))

/-- Function NewProjection from mbutil.go lines 253-271: stores the box
and collects the levels from zoomlevel to MAX_ZOOM_LEVEL inclusive. -/
def NewProjection (xmin ymin xmax ymax : ℝ) (zoomlevel : ℤ) : Projection :=
  { xmin := xmin, ymin := ymin, xmax := xmax, ymax := ymax,
    levels := intRange zoomlevel MAX_ZOOM_LEVEL }

/-- Method project_pixels from mbutil.go lines 273-280. -/
noncomputable def Projection.project_pixels
    (_proj : Projection) (x y : ℝ) (zoom : ℤ) : ℝ × ℝ :=
  let d := Zc zoom.toNat
  let e := Round (d.1 + x * Bc zoom.toNat)
  let f := minMax (Real.sin (DEG_TO_RAD * y)) (-0.9999) 0.9999
  let g := Round (d.2 + 0.5 * Real.log ((1 + f) / (1 - f)) * -(Cc zoom.toNat))
  (e, g)

/-- Pixel pair px0 of TileList (mbutil.go line 287): the projected
left-top corner (xmin, ymax). -/
noncomputable def Projection.px0 (proj : Projection) (zoom : ℤ) : ℝ × ℝ :=
  proj.project_pixels proj.xmin proj.ymax zoom

/-- Pixel pair px1 of TileList (mbutil.go line 288): the projected
right-bottom corner (xmax, ymin). -/
noncomputable def Projection.px1 (proj : Projection) (zoom : ℤ) : ℝ × ℝ :=
  proj.project_pixels proj.xmax proj.ymin zoom

/-- Bound xrangeStart of TileList (mbutil.go line 290): int(px0[0]/256). -/
noncomputable def Projection.xrangeStart (proj : Projection) (zoom : ℤ) : ℤ :=
  goInt ((proj.px0 zoom).1 / DEFAULT_TILE_SIZE)

/-- Bound xrangeEnd of TileList (mbutil.go line 291): int(px1[0]/256). -/
noncomputable def Projection.xrangeEnd (proj : Projection) (zoom : ℤ) : ℤ :=
  goInt ((proj.px1 zoom).1 / DEFAULT_TILE_SIZE)

/-- Bound yrangeStart of TileList (mbutil.go line 296): int(px0[1]/256).
The source recomputes it inside the column loop, but the value does not
depend on the loop variable. -/
noncomputable def Projection.yrangeStart (proj : Projection) (zoom : ℤ) : ℤ :=
  goInt ((proj.px0 zoom).2 / DEFAULT_TILE_SIZE)

/-- Bound yrangeEnd of TileList (mbutil.go line 297): int(px1[1]/256). -/
noncomputable def Projection.yrangeEnd (proj : Projection) (zoom : ℤ) : ℤ :=
  goInt ((proj.px1 zoom).2 / DEFAULT_TILE_SIZE)

/-- Clip test of TileList (mbutil.go lines 293 and 299): a candidate
index n is skipped when n < 0 or float64(n) > two_power_zoom. -/
def outOfGrid (two_power_zoom : ℝ) (n : ℤ) : Prop :=
  n < 0 ∨ (n : ℝ) > two_power_zoom

open Classical in
/-- Body of the per-zoom portion of TileList (mbutil.go lines 285-306):
two nested inclusive loops over the column and row ranges, where a
clipped index contributes nothing (continue) and an accepted pair
appends the tile with z = zoom; two_power_zoom is math.Pow(2, zoom). -/
noncomputable def Projection.tilesAtZoom (proj : Projection) (zoom : ℤ) : List Tile :=
  let two_power_zoom : ℝ := (2 : ℝ) ^ zoom
  (intRange (proj.xrangeStart zoom) (proj.xrangeEnd zoom)).flatMap fun x =>
    if outOfGrid two_power_zoom x then []
    else
      (intRange (proj.yrangeStart zoom) (proj.yrangeEnd zoom)).flatMap fun y =>
        if outOfGrid two_power_zoom y then []
        else [{ z := zoom, x := x, y := y, Content := [] }]

/-- Method TileList from mbutil.go lines 282-308: concatenation of the
per-zoom tile lists over proj.levels in order. -/
noncomputable def Projection.TileList (proj : Projection) : List Tile :=
  proj.levels.flatMap fun zoom => proj.tilesAtZoom zoom

/-! The fetch side (mbutil.go lines 57-86).  The HTTP client is the
external collaborator; it is modelled as an oracle from the request URL
to either none (a transport error: http.Get returned a non-nil error)
or some response.  A response carries its status code, the bytes that
ioutil.ReadAll obtains from the body, and whether that read ended in an
error.  Go's http.Get does not return an error for a non-2xx status. -/

/-- Response of the modelled HTTP client. -/
structure HttpResponse where
  statusCode : ℕ
  body : List ℕ
  readErr : Bool
  deriving DecidableEq, Repr

/-- Success of an HTTP status code (the 2xx class); the spec's notion of
a non-success response is the negation of this. -/
def httpSuccess (code : ℕ) : Prop := 200 ≤ code ∧ code < 300

/-- URL template url_format from mbutil.go line 81. -/
def url_format : String := "http://c.tile.openstreetmap.org/\x7bz\x7d/\x7bx\x7d/\x7by\x7d.png"

/-- Function getTileUrl from mbutil.go lines 80-86: substitute x, y, z
into the template. -/
def getTileUrl (z x y : ℤ) : String :=
  let tile_url := url_format.replace "\x7bx\x7d" (toString x)
  let tile_url := tile_url.replace "\x7by\x7d" (toString y)
  tile_url.replace "\x7bz\x7d" (toString z)

/-- Function fetchTile from mbutil.go lines 65-78, parametrised by the
HTTP oracle.  A transport error hits log.Fatal, which aborts the whole
process: modelled as none.  Otherwise the returned tile carries the
requested coordinates and the bytes read from the body; the error value
of ioutil.ReadAll is assigned to err on line 76 and never inspected. -/
def fetchTile (get : String → Option HttpResponse) (z x y : ℤ) : Option Tile :=
  match get (getTileUrl z x y) with
  | none => none
  | some resp => some { z := z, x := x, y := y, Content := resp.body }

/-- One iteration of the worker loop tileFetcher from mbutil.go lines
57-63: fetch the tile read from inputPipe and forward the result to
tilePipe (none when the fetch aborted the process). -/
def tileFetcherStep (get : String → Option HttpResponse) (t : Tile) : Option Tile :=
  fetchTile get t.z t.x t.y

/-- Number of acknowledgments the orchestrator waits for (mbutil.go
lines 213-216): one per enumerated tile. -/
noncomputable def acksAwaited (proj : Projection) : ℕ :=
  proj.TileList.length

/-- Strict lexicographic order on tiles: ascending zoom, then ascending
column, then ascending row. -/
def tileLexLt (a b : Tile) : Prop :=
  a.z < b.z ∨ (a.z = b.z ∧ (a.x < b.x ∨ (a.x = b.x ∧ a.y < b.y)))

/-! Helper lemmas. -/

lemma cSeq_eq (n : ℕ) : cSeq n = 256 * 2 ^ n := by
  induction n with
  | zero => simp [cSeq]
  | succ k ih => rw [cSeq, ih]; ring

lemma ceil_sub_half (n : ℤ) : ⌈(n : ℝ) - 0.5⌉ = n := by
  rw [Int.ceil_eq_iff]
  constructor <;> norm_num

lemma floor_add_half (n : ℤ) : ⌊(n : ℝ) + 0.5⌋ = n := by
  rw [Int.floor_eq_iff]
  constructor <;> norm_num

lemma Round_intCast (n : ℤ) : Round (n : ℝ) = n := by
  unfold Round
  split
  · rw [ceil_sub_half]
  · rw [floor_add_half]

lemma goInt_eq_floor {r : ℝ} (h : 0 ≤ r) : goInt r = ⌊r⌋ := by
  unfold goInt
  rw [if_neg (not_lt.2 h)]

lemma goInt_eq_ceil {r : ℝ} (h : r < 0) : goInt r = ⌈r⌉ := by
  unfold goInt
  rw [if_pos h]

lemma goInt_intCast (n : ℤ) : goInt (n : ℝ) = n := by
  unfold goInt
  split
  · exact Int.ceil_intCast n
  · exact Int.floor_intCast n

lemma mem_intRange {a b n : ℤ} : n ∈ intRange a b ↔ a ≤ n ∧ n ≤ b := by
  unfold intRange
  simp only [List.mem_map, List.mem_range]
  constructor
  · rintro ⟨k, hk, rfl⟩
    omega
  · rintro ⟨h1, h2⟩
    exact ⟨(n - a).toNat, by omega, by omega⟩

lemma intRange_self (a : ℤ) : intRange a a = [a] := by
  unfold intRange
  have h : (a + 1 - a).toNat = 1 := by omega
  rw [h, show List.range 1 = [0] from rfl]
  simp

lemma pairwise_lt_intRange (a b : ℤ) : (intRange a b).Pairwise (· < ·) := by
  unfold intRange
  rw [List.pairwise_map]
  refine (List.pairwise_lt_range _).imp ?_
  intro x y h
  omega

lemma mem_tilesAtZoom {proj : Projection} {zoom : ℤ} {t : Tile} :
    t ∈ proj.tilesAtZoom zoom ↔
      t.z = zoom ∧ t.Content = [] ∧
      proj.xrangeStart zoom ≤ t.x ∧ t.x ≤ proj.xrangeEnd zoom ∧
      ¬ outOfGrid ((2 : ℝ) ^ zoom) t.x ∧
      proj.yrangeStart zoom ≤ t.y ∧ t.y ≤ proj.yrangeEnd zoom ∧
      ¬ outOfGrid ((2 : ℝ) ^ zoom) t.y := by
  unfold Projection.tilesAtZoom
  simp only [List.mem_flatMap, mem_intRange]
  constructor
  · rintro ⟨x, ⟨hx1, hx2⟩, hx⟩
    by_cases hcx : outOfGrid ((2 : ℝ) ^ zoom) x
    · rw [if_pos hcx] at hx
      simp at hx
    · rw [if_neg hcx] at hx
      simp only [List.mem_flatMap, mem_intRange] at hx
      obtain ⟨y, ⟨hy1, hy2⟩, hy⟩ := hx
      by_cases hcy : outOfGrid ((2 : ℝ) ^ zoom) y
      · rw [if_pos hcy] at hy
        simp at hy
      · rw [if_neg hcy] at hy
        simp only [List.mem_singleton] at hy
        subst hy
        exact ⟨rfl, rfl, hx1, hx2, hcx, hy1, hy2, hcy⟩
  · rintro ⟨hz, hc, hx1, hx2, hcx, hy1, hy2, hcy⟩
    refine ⟨t.x, ⟨hx1, hx2⟩, ?_⟩
    rw [if_neg hcx]
    simp only [List.mem_flatMap, mem_intRange]
    refine ⟨t.y, ⟨hy1, hy2⟩, ?_⟩
    rw [if_neg hcy]
    simp only [List.mem_singleton]
    cases t
    simp_all

lemma tilesAtZoom_z {proj : Projection} {zoom : ℤ} {t : Tile}
    (h : t ∈ proj.tilesAtZoom zoom) : t.z = zoom :=
  (mem_tilesAtZoom.1 h).1

lemma mem_TileList {proj : Projection} {t : Tile} :
    t ∈ proj.TileList ↔ ∃ zoom ∈ proj.levels, t ∈ proj.tilesAtZoom zoom := by
  unfold Projection.TileList
  exact List.mem_flatMap

/-! Claim theorems. -/

/-- C6: Round is round-half-away-from-zero: negative values round via
ceil(v - 0.5), non-negative via floor(v + 0.5); it is odd as a function
(away from zero on both sides), and Round 2.5 = 3, Round (-2.5) = -3,
Round 2.4 = 2. -/
theorem C6_round_half_away_from_zero (v : ℝ) :
    (v < 0 → Round v = (⌈v - 0.5⌉ : ℤ)) ∧
    (0 ≤ v → Round v = (⌊v + 0.5⌋ : ℤ)) ∧
    Round (-v) = - Round v ∧
    Round 2.5 = 3 ∧ Round (-2.5) = -3 ∧ Round 2.4 = 2 := by
  refine ⟨fun h => ?_, fun h => ?_, ?_, ?_, ?_, ?_⟩
  · rw [Round, if_pos h]
  · rw [Round, if_neg (not_lt.2 h)]
  · rcases lt_trichotomy v 0 with hv | hv | hv
    · simp only [Round]
      rw [if_pos hv, if_neg (by push_neg; linarith : ¬ (-v) < 0)]
      rw [show -v + 0.5 = -(v - 0.5) by ring, Int.floor_neg]
      push_cast
      ring
    · subst hv
      norm_num [Round]
    · simp only [Round]
      rw [if_neg (by push_neg; linarith : ¬ v < 0), if_pos (by linarith : -v < 0)]
      rw [show -v - 0.5 = -(v + 0.5) by ring, Int.ceil_neg]
      push_cast
      ring
  · norm_num [Round]
  · rw [Round, if_pos (by norm_num)]
    rw [show (-2.5 : ℝ) - 0.5 = ((-3 : ℤ) : ℝ) by norm_num, Int.ceil_intCast]
    norm_num
  · norm_num [Round]

/-- Witness for C6 at v = -1 and v = 1. -/
theorem C6_round_half_away_from_zero_witness :
    Round ((-1 : ℝ)) = (⌈(-1 : ℝ) - 0.5⌉ : ℤ) ∧
    Round ((1 : ℝ)) = (⌊(1 : ℝ) + 0.5⌋ : ℤ) :=
  ⟨(C6_round_half_away_from_zero (-1)).1 (by norm_num),
   (C6_round_half_away_from_zero 1).2.1 (by norm_num)⟩

/-- C2 (amended): a transport error (http.Get returning an error) aborts
the process, but a non-success HTTP response is NOT surfaced as an
error: fetchTile returns a populated Tile carrying the response body. -/
theorem C2_fetch_error_policy :
    (∀ (get : String → Option HttpResponse) (z x y : ℤ),
        get (getTileUrl z x y) = none → fetchTile get z x y = none) ∧
    (∀ (get : String → Option HttpResponse) (z x y : ℤ) (resp : HttpResponse),
        get (getTileUrl z x y) = some resp → ¬ httpSuccess resp.statusCode →
          fetchTile get z x y = some { z := z, x := x, y := y, Content := resp.body }) := by
  constructor
  · intro get z x y h
    unfold fetchTile
    rw [h]
  · intro get z x y resp h _
    unfold fetchTile
    rw [h]

/-- Witness for C2: a transport error propagates as an abort, and a 404
response is stored as a tile. -/
theorem C2_fetch_error_policy_witness :
    fetchTile (fun _ => none) 1 2 3 = none ∧
    fetchTile (fun _ => some ⟨404, [7], false⟩) 1 2 3 =
      some { z := 1, x := 2, y := 3, Content := [7] } :=
  ⟨C2_fetch_error_policy.1 (fun _ => none) 1 2 3 rfl,
   C2_fetch_error_policy.2 (fun _ => some ⟨404, [7], false⟩) 1 2 3 ⟨404, [7], false⟩ rfl
     (by simp [httpSuccess])⟩

/-- C2 is false as stated: a non-success (404) HTTP response is not
surfaced as an error; fetchTile returns a populated Tile carrying the
error-page body, and tileFetcher forwards it downstream. -/
theorem C2_counterexample :
    fetchTile (fun _ => some ⟨404, [7], false⟩) 19 1 2 =
      some { z := 19, x := 1, y := 2, Content := [7] } ∧
    ¬ httpSuccess 404 ∧
    tileFetcherStep (fun _ => some ⟨404, [7], false⟩) ⟨19, 1, 2, []⟩ =
      some { z := 19, x := 1, y := 2, Content := [7] } :=
  ⟨rfl, by simp [httpSuccess], rfl⟩

/-- C9: when the HTTP GET itself succeeds, fetchTile returns a Tile with
exactly the requested coordinates and the bytes read from the body, even
when reading the body ended in an error (readErr = true): the read error
is silently discarded, the process is not aborted, and the tileFetcher
worker still forwards the tile downstream. -/
theorem C9_body_read_error_discarded
    (get : String → Option HttpResponse) (z x y : ℤ) (code : ℕ) (body : List ℕ)
    (h : get (getTileUrl z x y) = some ⟨code, body, true⟩) :
    fetchTile get z x y = some { z := z, x := x, y := y, Content := body } ∧
    fetchTile get z x y ≠ none ∧
    (∀ c : List ℕ, tileFetcherStep get ⟨z, x, y, c⟩ =
      some { z := z, x := x, y := y, Content := body }) := by
  have hf : fetchTile get z x y = some { z := z, x := x, y := y, Content := body } := by
    unfold fetchTile
    rw [h]
  refine ⟨hf, by rw [hf]; simp, fun c => ?_⟩
  unfold tileFetcherStep
  exact hf

/-- Witness for C9: a truncated body read (empty bytes, read error) is
still forwarded as a populated tile. -/
theorem C9_body_read_error_discarded_witness :
    fetchTile (fun _ => some ⟨200, [], true⟩) 4 5 6 =
      some { z := 4, x := 5, y := 6, Content := [] } :=
  (C9_body_read_error_discarded (fun _ => some ⟨200, [], true⟩) 4 5 6 200 [] rfl).1

/-- C10: for a requested zoom level strictly above MAX_ZOOM_LEVEL = 19,
NewProjection builds an empty zoom-level list, TileList returns the
empty list, and the orchestrator waits for zero acknowledgments. -/
theorem C10_zoom_above_max (xmin ymin xmax ymax : ℝ) (z0 : ℤ)
    (h : MAX_ZOOM_LEVEL < z0) :
    (NewProjection xmin ymin xmax ymax z0).levels = [] ∧
    (NewProjection xmin ymin xmax ymax z0).TileList = [] ∧
    acksAwaited (NewProjection xmin ymin xmax ymax z0) = 0 := by
  have h0 : (MAX_ZOOM_LEVEL + 1 - z0).toNat = 0 := by
    unfold MAX_ZOOM_LEVEL at h ⊢
    omega
  have hl : (NewProjection xmin ymin xmax ymax z0).levels = [] := by
    unfold NewProjection intRange
    rw [h0]
    rfl
  refine ⟨hl, ?_, ?_⟩
  · unfold Projection.TileList
    rw [hl]
    rfl
  · unfold acksAwaited Projection.TileList
    rw [hl]
    rfl

/-- Witness for C10 at requested zoom 20. -/
theorem C10_zoom_above_max_witness :
    (NewProjection 0 0 0 0 20).levels = [] ∧
    (NewProjection 0 0 0 0 20).TileList = [] ∧
    acksAwaited (NewProjection 0 0 0 0 20) = 0 :=
  C10_zoom_above_max 0 0 0 0 20 (by decide)

/-! Unfolding and evaluation helpers for the enumerator. -/

open Classical in
lemma tilesAtZoom_def (proj : Projection) (zoom : ℤ) :
    proj.tilesAtZoom zoom =
      (intRange (proj.xrangeStart zoom) (proj.xrangeEnd zoom)).flatMap (fun x =>
        if outOfGrid ((2 : ℝ) ^ zoom) x then []
        else
          (intRange (proj.yrangeStart zoom) (proj.yrangeEnd zoom)).flatMap (fun y =>
            if outOfGrid ((2 : ℝ) ^ zoom) y then []
            else [{ z := zoom, x := x, y := y, Content := [] }])) := rfl

lemma project_pixels_fst (proj : Projection) (x y : ℝ) (zoom : ℤ) :
    (proj.project_pixels x y zoom).1 = Round (cSeq zoom.toNat / 2 + x * Bc zoom.toNat) := rfl

lemma project_pixels_snd (proj : Projection) (x y : ℝ) (zoom : ℤ) :
    (proj.project_pixels x y zoom).2 =
      Round (cSeq zoom.toNat / 2 +
        0.5 * Real.log ((1 + minMax (Real.sin (DEG_TO_RAD * y)) (-0.9999) 0.9999) /
          (1 - minMax (Real.sin (DEG_TO_RAD * y)) (-0.9999) 0.9999)) * -(Cc zoom.toNat)) := rfl

lemma project_pixels_snd_lat_zero (proj : Projection) (x : ℝ) (zoom : ℤ) :
    (proj.project_pixels x 0 zoom).2 = Round (cSeq zoom.toNat / 2) := by
  rw [project_pixels_snd, mul_zero, Real.sin_zero,
    show minMax 0 (-0.9999) 0.9999 = (0 : ℝ) by
      unfold minMax
      rw [max_eq_left (by norm_num), min_eq_left (by norm_num)]]
  norm_num [Real.log_one]

lemma Round_eq_int {r : ℝ} (n : ℤ) (h : r = n) : Round r = n := by
  rw [h, Round_intCast]

lemma goInt_eq_int {r : ℝ} (n : ℤ) (h : r = n) : goInt r = n := by
  rw [h, goInt_intCast]

lemma goInt_div_256_eq {p : ℝ} {c : ℤ} (hc : 0 ≤ c)
    (hl : (c : ℝ) * 256 ≤ p) (hu : p < ((c : ℝ) + 1) * 256) :
    goInt (p / DEFAULT_TILE_SIZE) = c := by
  have hc' : (0 : ℝ) ≤ (c : ℝ) := Int.cast_nonneg.2 hc
  have hp : 0 ≤ p / DEFAULT_TILE_SIZE := by
    unfold DEFAULT_TILE_SIZE
    apply div_nonneg (by linarith) (by norm_num)
  rw [goInt_eq_floor hp]
  unfold DEFAULT_TILE_SIZE
  rw [Int.floor_eq_iff]
  constructor
  · rw [le_div_iff (by norm_num)]
    linarith
  · rw [div_lt_iff (by norm_num)]
    linarith

/-- C4: within the enumeration ranges a candidate column/row pair is
emitted exactly when neither index is < 0 nor strictly greater than
2^z, and the boundary index 2^z itself passes the clip test (it is
kept, not discarded). -/
theorem C4_clip_keeps_grid_edge (proj : Projection) (zoom : ℤ) (x y : ℤ)
    (hz : 0 ≤ zoom)
    (hx1 : proj.xrangeStart zoom ≤ x) (hx2 : x ≤ proj.xrangeEnd zoom)
    (hy1 : proj.yrangeStart zoom ≤ y) (hy2 : y ≤ proj.yrangeEnd zoom) :
    (((⟨zoom, x, y, []⟩ : Tile) ∈ proj.tilesAtZoom zoom) ↔
      (¬ outOfGrid ((2 : ℝ) ^ zoom) x ∧ ¬ outOfGrid ((2 : ℝ) ^ zoom) y)) ∧
    ¬ outOfGrid ((2 : ℝ) ^ zoom) (2 ^ zoom.toNat : ℤ) := by
  constructor
  · rw [mem_tilesAtZoom]
    constructor
    · rintro ⟨-, -, -, -, hcx, -, -, hcy⟩
      exact ⟨hcx, hcy⟩
    · rintro ⟨hcx, hcy⟩
      exact ⟨rfl, rfl, hx1, hx2, hcx, hy1, hy2, hcy⟩
  · unfold outOfGrid
    push_neg
    constructor
    · positivity
    · conv_rhs => rw [show zoom = ((zoom.toNat : ℤ)) from by omega, zpow_natCast]
      push_cast
      exact le_refl _

/-- C5: with a requested zoom z0 between 0 and 19, a zoom level z occurs
among the emitted tiles exactly when z0 ≤ z ≤ 19 (the full pyramid up to
maxZoom = 19) and the clipped per-zoom enumeration at z is non-empty. -/
theorem C5_full_pyramid_zoom_levels (xmin ymin xmax ymax : ℝ) (z0 : ℤ)
    (h0 : 0 ≤ z0) (h19 : z0 ≤ MAX_ZOOM_LEVEL) (z : ℤ) :
    (∃ t ∈ (NewProjection xmin ymin xmax ymax z0).TileList, t.z = z) ↔
      (z0 ≤ z ∧ z ≤ MAX_ZOOM_LEVEL ∧
        (NewProjection xmin ymin xmax ymax z0).tilesAtZoom z ≠ []) := by
  constructor
  · rintro ⟨t, ht, rfl⟩
    obtain ⟨zoom, hzoom, htz⟩ := mem_TileList.1 ht
    have hz : t.z = zoom := tilesAtZoom_z htz
    have hrange : z0 ≤ zoom ∧ zoom ≤ MAX_ZOOM_LEVEL := mem_intRange.1 hzoom
    rw [hz]
    exact ⟨hrange.1, hrange.2, List.ne_nil_of_mem htz⟩
  · rintro ⟨hz0, hz19, hne⟩
    obtain ⟨t, ht⟩ := List.exists_mem_of_ne_nil _ hne
    exact ⟨t, mem_TileList.2 ⟨z, mem_intRange.2 ⟨hz0, hz19⟩, ht⟩, tilesAtZoom_z ht⟩

/-- Witness for C5 at requested zoom 0 and queried zoom 5. -/
theorem C5_full_pyramid_zoom_levels_witness :
    (∃ t ∈ (NewProjection 0 0 0 0 0).TileList, t.z = 5) ↔
      ((0 : ℤ) ≤ 5 ∧ (5 : ℤ) ≤ MAX_ZOOM_LEVEL ∧
        (NewProjection 0 0 0 0 0).tilesAtZoom 5 ≠ []) :=
  C5_full_pyramid_zoom_levels 0 0 0 0 0 (by norm_num) (by decide) 5

/-- C1 (amended): every emitted TileId satisfies 0 ≤ column ≤ 2^z and
0 ≤ row ≤ 2^z; the bound is inclusive at 2^z, not strict, because the
source clip keeps an index equal to 2^z. -/
theorem C1_emitted_tile_bounds (xmin ymin xmax ymax : ℝ) (z0 : ℤ) (t : Tile)
    (h : t ∈ (NewProjection xmin ymin xmax ymax z0).TileList) :
    0 ≤ t.x ∧ (t.x : ℝ) ≤ 2 ^ t.z ∧ 0 ≤ t.y ∧ (t.y : ℝ) ≤ 2 ^ t.z := by
  obtain ⟨zoom, -, ht⟩ := mem_TileList.1 h
  have hz : t.z = zoom := tilesAtZoom_z ht
  obtain ⟨-, -, -, -, hcx, -, -, hcy⟩ := mem_tilesAtZoom.1 ht
  unfold outOfGrid at hcx hcy
  push_neg at hcx hcy
  rw [hz]
  exact ⟨hcx.1, hcx.2, hcy.1, hcy.2⟩

/-- C8: when the projected footprint of the bounding box at a zoom lies
fully inside the pixel footprint of the single valid tile (c, r), the
enumerator emits exactly that one TileId for the zoom. -/
theorem C8_single_tile (proj : Projection) (zoom : ℤ) (c r : ℤ)
    (hc0 : 0 ≤ c) (hcz : (c : ℝ) < 2 ^ zoom)
    (hr0 : 0 ≤ r) (hrz : (r : ℝ) < 2 ^ zoom)
    (h1 : (c : ℝ) * 256 ≤ (proj.px0 zoom).1) (h2 : (proj.px0 zoom).1 < ((c : ℝ) + 1) * 256)
    (h3 : (c : ℝ) * 256 ≤ (proj.px1 zoom).1) (h4 : (proj.px1 zoom).1 < ((c : ℝ) + 1) * 256)
    (h5 : (r : ℝ) * 256 ≤ (proj.px0 zoom).2) (h6 : (proj.px0 zoom).2 < ((r : ℝ) + 1) * 256)
    (h7 : (r : ℝ) * 256 ≤ (proj.px1 zoom).2) (h8 : (proj.px1 zoom).2 < ((r : ℝ) + 1) * 256) :
    proj.tilesAtZoom zoom = [⟨zoom, c, r, []⟩] := by
  have ex1 : proj.xrangeStart zoom = c := by
    unfold Projection.xrangeStart
    exact goInt_div_256_eq hc0 h1 h2
  have ex2 : proj.xrangeEnd zoom = c := by
    unfold Projection.xrangeEnd
    exact goInt_div_256_eq hc0 h3 h4
  have ey1 : proj.yrangeStart zoom = r := by
    unfold Projection.yrangeStart
    exact goInt_div_256_eq hr0 h5 h6
  have ey2 : proj.yrangeEnd zoom = r := by
    unfold Projection.yrangeEnd
    exact goInt_div_256_eq hr0 h7 h8
  have hcx : ¬ outOfGrid ((2 : ℝ) ^ zoom) c := by
    unfold outOfGrid
    push_neg
    exact ⟨hc0, le_of_lt hcz⟩
  have hcy : ¬ outOfGrid ((2 : ℝ) ^ zoom) r := by
    unfold outOfGrid
    push_neg
    exact ⟨hr0, le_of_lt hrz⟩
  simp only [tilesAtZoom_def, ex1, ex2, ey1, ey2, intRange_self, List.flatMap_cons,
    List.flatMap_nil, List.append_nil, if_neg hcx, if_neg hcy]

/-! Concrete evaluations: the degenerate box at (0, 0) seen at zoom 1,
and a box with west edge -360 seen at zoom 0 (negative pixel x). -/

lemma unit_box_px0 : (NewProjection 0 0 0 0 1).px0 1 = (((256 : ℤ) : ℝ), ((256 : ℤ) : ℝ)) := by
  unfold Projection.px0
  rw [show (NewProjection 0 0 0 0 1).xmin = 0 from rfl,
    show (NewProjection 0 0 0 0 1).ymax = 0 from rfl]
  refine Prod.ext ?_ ?_
  · rw [project_pixels_fst]
    apply Round_eq_int
    rw [cSeq_eq]
    norm_num [Int.toNat_one]
  · rw [project_pixels_snd_lat_zero]
    apply Round_eq_int
    rw [cSeq_eq]
    norm_num [Int.toNat_one]

lemma unit_box_px1 : (NewProjection 0 0 0 0 1).px1 1 = (((256 : ℤ) : ℝ), ((256 : ℤ) : ℝ)) := by
  unfold Projection.px1
  rw [show (NewProjection 0 0 0 0 1).xmax = 0 from rfl,
    show (NewProjection 0 0 0 0 1).ymin = 0 from rfl]
  refine Prod.ext ?_ ?_
  · rw [project_pixels_fst]
    apply Round_eq_int
    rw [cSeq_eq]
    norm_num [Int.toNat_one]
  · rw [project_pixels_snd_lat_zero]
    apply Round_eq_int
    rw [cSeq_eq]
    norm_num [Int.toNat_one]

lemma unit_box_bounds :
    (NewProjection 0 0 0 0 1).xrangeStart 1 = 1 ∧
    (NewProjection 0 0 0 0 1).xrangeEnd 1 = 1 ∧
    (NewProjection 0 0 0 0 1).yrangeStart 1 = 1 ∧
    (NewProjection 0 0 0 0 1).yrangeEnd 1 = 1 := by
  refine ⟨?_, ?_, ?_, ?_⟩
  · unfold Projection.xrangeStart
    rw [unit_box_px0]
    apply goInt_eq_int
    unfold DEFAULT_TILE_SIZE
    push_cast
    norm_num
  · unfold Projection.xrangeEnd
    rw [unit_box_px1]
    apply goInt_eq_int
    unfold DEFAULT_TILE_SIZE
    push_cast
    norm_num
  · unfold Projection.yrangeStart
    rw [unit_box_px0]
    apply goInt_eq_int
    unfold DEFAULT_TILE_SIZE
    push_cast
    norm_num
  · unfold Projection.yrangeEnd
    rw [unit_box_px1]
    apply goInt_eq_int
    unfold DEFAULT_TILE_SIZE
    push_cast
    norm_num

lemma neg_box_px0_fst : ((NewProjection (-360) (-1) 0 0 0).px0 0).1 = ((-128 : ℤ) : ℝ) := by
  unfold Projection.px0
  rw [show (NewProjection (-360) (-1) 0 0 0).xmin = -360 from rfl,
    show (NewProjection (-360) (-1) 0 0 0).ymax = 0 from rfl,
    project_pixels_fst]
  apply Round_eq_int
  unfold Bc
  rw [cSeq_eq]
  norm_num [Int.toNat_zero]

/-- Witness for C4 at the degenerate box (0,0,0,0), zoom 1, column and
row 1. -/
theorem C4_clip_keeps_grid_edge_witness :
    (((⟨1, 1, 1, []⟩ : Tile) ∈ (NewProjection 0 0 0 0 1).tilesAtZoom 1) ↔
      (¬ outOfGrid ((2 : ℝ) ^ (1 : ℤ)) 1 ∧ ¬ outOfGrid ((2 : ℝ) ^ (1 : ℤ)) 1)) ∧
    ¬ outOfGrid ((2 : ℝ) ^ (1 : ℤ)) (2 ^ (1 : ℤ).toNat : ℤ) :=
  C4_clip_keeps_grid_edge (NewProjection 0 0 0 0 1) 1 1 1 (by norm_num)
    (le_of_eq unit_box_bounds.1) (le_of_eq unit_box_bounds.2.1.symm)
    (le_of_eq unit_box_bounds.2.2.1) (le_of_eq unit_box_bounds.2.2.2.symm)

/-- Witness for C8 at the degenerate box (0,0,0,0), zoom 1: the single
emitted tile is (1, 1, 1). -/
theorem C8_single_tile_witness :
    (NewProjection 0 0 0 0 1).tilesAtZoom 1 = [⟨1, 1, 1, []⟩] :=
  C8_single_tile (NewProjection 0 0 0 0 1) 1 1 1
    (by norm_num) (by norm_num) (by norm_num) (by norm_num)
    (by rw [unit_box_px0]; norm_num) (by rw [unit_box_px0]; norm_num)
    (by rw [unit_box_px1]; norm_num) (by rw [unit_box_px1]; norm_num)
    (by rw [unit_box_px0]; norm_num) (by rw [unit_box_px0]; norm_num)
    (by rw [unit_box_px1]; norm_num) (by rw [unit_box_px1]; norm_num)

lemma goInt_div_cases (p : ℝ) :
    (0 ≤ p → goInt (p / DEFAULT_TILE_SIZE) = ⌊p / 256⌋) ∧
    (p < 0 → goInt (p / DEFAULT_TILE_SIZE) = ⌈p / 256⌉) := by
  unfold DEFAULT_TILE_SIZE
  constructor
  · intro h
    exact goInt_eq_floor (div_nonneg h (by norm_num))
  · intro h
    exact goInt_eq_ceil (div_neg_of_neg_of_pos h (by norm_num))

/-- C7 (amended): each tile-index bound used by the enumerator is the
truncation toward zero of the corner pixel coordinate divided by 256:
floor(px / 256) when px is nonnegative, but ceil(px / 256) when px is
negative. -/
theorem C7_bounds_truncate_toward_zero (proj : Projection) (zoom : ℤ) :
    ((0 ≤ (proj.px0 zoom).1 → proj.xrangeStart zoom = ⌊(proj.px0 zoom).1 / 256⌋) ∧
      ((proj.px0 zoom).1 < 0 → proj.xrangeStart zoom = ⌈(proj.px0 zoom).1 / 256⌉)) ∧
    ((0 ≤ (proj.px1 zoom).1 → proj.xrangeEnd zoom = ⌊(proj.px1 zoom).1 / 256⌋) ∧
      ((proj.px1 zoom).1 < 0 → proj.xrangeEnd zoom = ⌈(proj.px1 zoom).1 / 256⌉)) ∧
    ((0 ≤ (proj.px0 zoom).2 → proj.yrangeStart zoom = ⌊(proj.px0 zoom).2 / 256⌋) ∧
      ((proj.px0 zoom).2 < 0 → proj.yrangeStart zoom = ⌈(proj.px0 zoom).2 / 256⌉)) ∧
    ((0 ≤ (proj.px1 zoom).2 → proj.yrangeEnd zoom = ⌊(proj.px1 zoom).2 / 256⌋) ∧
      ((proj.px1 zoom).2 < 0 → proj.yrangeEnd zoom = ⌈(proj.px1 zoom).2 / 256⌉)) :=
  ⟨goInt_div_cases (proj.px0 zoom).1, goInt_div_cases (proj.px1 zoom).1,
   goInt_div_cases (proj.px0 zoom).2, goInt_div_cases (proj.px1 zoom).2⟩

/-- C7 is false as stated: at zoom 0 with west edge -360 the projected
left-top pixel x-coordinate is -128, and the enumerator's column start
int(-128/256) is 0, not floor(-128/256) = -1. -/
theorem C7_counterexample :
    (NewProjection (-360) (-1) 0 0 0).xrangeStart 0 = 0 ∧
    ⌊((NewProjection (-360) (-1) 0 0 0).px0 0).1 / 256⌋ = -1 := by
  constructor
  · unfold Projection.xrangeStart DEFAULT_TILE_SIZE
    rw [neg_box_px0_fst, goInt_eq_ceil (by norm_num)]
    norm_num
  · rw [neg_box_px0_fst]
    norm_num

/-- Witness for C7 (amended): the floor branch at the degenerate box at
zoom 1 (pixel 256), and the ceil branch on the -360 box at zoom 0
(pixel -128). -/
theorem C7_bounds_truncate_toward_zero_witness :
    ((0 : ℝ) ≤ ((NewProjection 0 0 0 0 1).px0 1).1 ∧
      (NewProjection 0 0 0 0 1).xrangeStart 1 = ⌊((NewProjection 0 0 0 0 1).px0 1).1 / 256⌋) ∧
    (((NewProjection (-360) (-1) 0 0 0).px0 0).1 < 0 ∧
      (NewProjection (-360) (-1) 0 0 0).xrangeStart 0 =
        ⌈((NewProjection (-360) (-1) 0 0 0).px0 0).1 / 256⌉) := by
  constructor
  · have h : (0 : ℝ) ≤ ((NewProjection 0 0 0 0 1).px0 1).1 := by
      rw [unit_box_px0]
      norm_num
    exact ⟨h, (C7_bounds_truncate_toward_zero (NewProjection 0 0 0 0 1) 1).1.1 h⟩
  · have h : ((NewProjection (-360) (-1) 0 0 0).px0 0).1 < 0 := by
      rw [neg_box_px0_fst]
      norm_num
    exact ⟨h, (C7_bounds_truncate_toward_zero (NewProjection (-360) (-1) 0 0 0) 0).1.2 h⟩

/-! Ordering of the enumerator output. -/

open Classical in
lemma pairwise_tilesAtZoom (proj : Projection) (zoom : ℤ) :
    (proj.tilesAtZoom zoom).Pairwise
      (fun a b => a.z = b.z ∧ (a.x < b.x ∨ (a.x = b.x ∧ a.y < b.y))) := by
  rw [tilesAtZoom_def, List.pairwise_flatMap]
  constructor
  · intro x hx
    split
    · exact List.Pairwise.nil
    · rw [List.pairwise_flatMap]
      constructor
      · intro y hy
        split
        · exact List.Pairwise.nil
        · exact List.pairwise_singleton _ _
      · refine (pairwise_lt_intRange _ _).imp ?_
        intro y1 y2 hlt t1 ht1 t2 ht2
        split at ht1
        · simp at ht1
        · split at ht2
          · simp at ht2
          · rw [List.mem_singleton] at ht1 ht2
            subst ht1
            subst ht2
            exact ⟨rfl, Or.inr ⟨rfl, hlt⟩⟩
  · refine (pairwise_lt_intRange _ _).imp ?_
    intro x1 x2 hlt t1 ht1 t2 ht2
    split at ht1
    · simp at ht1
    · split at ht2
      · simp at ht2
      · rw [List.mem_flatMap] at ht1 ht2
        obtain ⟨y1, -, hy1⟩ := ht1
        obtain ⟨y2, -, hy2⟩ := ht2
        split at hy1
        · simp at hy1
        · split at hy2
          · simp at hy2
          · rw [List.mem_singleton] at hy1 hy2
            subst hy1
            subst hy2
            exact ⟨rfl, Or.inl hlt⟩

lemma tileLexLt_ne {a b : Tile} (h : tileLexLt a b) : a ≠ b := by
  rintro rfl
  rcases h with h | ⟨-, h | ⟨-, h⟩⟩ <;> exact absurd h (lt_irrefl _)

/-- C3: TileList is strictly sorted in lexicographic order — ascending
zoom, then ascending column, then ascending row — and therefore contains
no duplicate TileId. -/
theorem C3_sorted_and_no_duplicates (xmin ymin xmax ymax : ℝ) (z0 : ℤ) :
    ((NewProjection xmin ymin xmax ymax z0).TileList).Pairwise tileLexLt ∧
    ((NewProjection xmin ymin xmax ymax z0).TileList).Nodup := by
  have hpw : ((NewProjection xmin ymin xmax ymax z0).TileList).Pairwise tileLexLt := by
    unfold Projection.TileList
    rw [List.pairwise_flatMap]
    constructor
    · intro zoom hzoom
      refine (pairwise_tilesAtZoom _ zoom).imp ?_
      intro a b hab
      exact Or.inr ⟨hab.1, hab.2⟩
    · refine (pairwise_lt_intRange _ _).imp ?_
      intro z1 z2 hlt t1 ht1 t2 ht2
      left
      rw [tilesAtZoom_z ht1, tilesAtZoom_z ht2]
      exact hlt
  exact ⟨hpw, hpw.imp tileLexLt_ne⟩

/-! Evaluation of the box (xmin 0, ymin -45, xmax 180, ymax 0) at zoom
19: its east edge projects to pixel x = 256 * 2^19, so the enumerator
reaches the column index 2^19 = 524288, one past the last valid column,
and the clip keeps it. -/

lemma c1_box_px0_fst :
    ((NewProjection 0 (-45) 180 0 19).px0 19).1 = ((67108864 : ℤ) : ℝ) := by
  unfold Projection.px0
  rw [show (NewProjection 0 (-45) 180 0 19).xmin = 0 from rfl,
    show (NewProjection 0 (-45) 180 0 19).ymax = 0 from rfl,
    project_pixels_fst]
  apply Round_eq_int
  rw [show ((19 : ℤ).toNat) = 19 from rfl, cSeq_eq]
  norm_num

lemma c1_box_px0_snd :
    ((NewProjection 0 (-45) 180 0 19).px0 19).2 = ((67108864 : ℤ) : ℝ) := by
  unfold Projection.px0
  rw [show (NewProjection 0 (-45) 180 0 19).xmin = 0 from rfl,
    show (NewProjection 0 (-45) 180 0 19).ymax = 0 from rfl,
    project_pixels_snd_lat_zero]
  apply Round_eq_int
  rw [show ((19 : ℤ).toNat) = 19 from rfl, cSeq_eq]
  norm_num

lemma c1_box_px1_fst :
    ((NewProjection 0 (-45) 180 0 19).px1 19).1 = ((134217728 : ℤ) : ℝ) := by
  unfold Projection.px1
  rw [show (NewProjection 0 (-45) 180 0 19).xmax = 180 from rfl,
    show (NewProjection 0 (-45) 180 0 19).ymin = -45 from rfl,
    project_pixels_fst]
  apply Round_eq_int
  unfold Bc
  rw [show ((19 : ℤ).toNat) = 19 from rfl, cSeq_eq]
  norm_num

lemma c1_box_px1_snd_ge :
    ((67108864 : ℤ) : ℝ) ≤ ((NewProjection 0 (-45) 180 0 19).px1 19).2 := by
  unfold Projection.px1
  rw [show (NewProjection 0 (-45) 180 0 19).xmax = 180 from rfl,
    show (NewProjection 0 (-45) 180 0 19).ymin = -45 from rfl,
    project_pixels_snd]
  rw [show DEG_TO_RAD * (-45 : ℝ) = -(Real.pi / 4) by unfold DEG_TO_RAD; ring,
    Real.sin_neg, Real.sin_pi_div_four]
  have hsqrt0 : 0 ≤ Real.sqrt 2 := Real.sqrt_nonneg 2
  have hsqrt : Real.sqrt 2 < 1.9998 := by
    rw [show (1.9998 : ℝ) = Real.sqrt (1.9998 ^ 2) by rw [Real.sqrt_sq (by norm_num)]]
    exact Real.sqrt_lt_sqrt (by norm_num) (by norm_num)
  rw [show minMax (-(Real.sqrt 2 / 2)) (-0.9999) 0.9999 = -(Real.sqrt 2 / 2) by
    unfold minMax
    rw [max_eq_left (by linarith), min_eq_left (by linarith)]]
  set f : ℝ := -(Real.sqrt 2 / 2) with hfdef
  have hf0 : f ≤ 0 := by rw [hfdef]; linarith
  have hf1 : -1 < f := by rw [hfdef]; linarith
  have hratio_pos : 0 < (1 + f) / (1 - f) := div_pos (by linarith) (by linarith)
  have hratio_le : (1 + f) / (1 - f) ≤ 1 := by
    rw [div_le_one (by linarith)]
    linarith
  have hlog : Real.log ((1 + f) / (1 - f)) ≤ 0 :=
    Real.log_nonpos (le_of_lt hratio_pos) hratio_le
  have hCc : 0 ≤ Cc (19 : ℤ).toNat := by
    unfold Cc
    apply div_nonneg
    · rw [cSeq_eq]
      positivity
    · have := Real.pi_pos
      linarith
  have hq : 0 ≤ 0.5 * Real.log ((1 + f) / (1 - f)) * -(Cc (19 : ℤ).toNat) := by
    nlinarith [mul_nonneg (neg_nonneg.2 hlog) hCc]
  have hd : cSeq (19 : ℤ).toNat / 2 = ((67108864 : ℤ) : ℝ) := by
    rw [show ((19 : ℤ).toNat) = 19 from rfl, cSeq_eq]
    norm_num
  set A : ℝ := cSeq (19 : ℤ).toNat / 2 +
    0.5 * Real.log ((1 + f) / (1 - f)) * -(Cc (19 : ℤ).toNat) with hAdef
  have hA : ((67108864 : ℤ) : ℝ) ≤ A := by
    rw [hAdef, hd]
    linarith
  have hA0 : ¬ A < 0 := by
    push_neg
    have : (0 : ℝ) ≤ ((67108864 : ℤ) : ℝ) := by norm_num
    linarith
  rw [Round, if_neg hA0]
  have hfl : (67108864 : ℤ) ≤ ⌊A + 0.5⌋ := by
    rw [Int.le_floor]
    push_cast at hA ⊢
    linarith
  exact_mod_cast hfl

lemma c1_box_bounds :
    (NewProjection 0 (-45) 180 0 19).xrangeStart 19 = 262144 ∧
    (NewProjection 0 (-45) 180 0 19).xrangeEnd 19 = 524288 ∧
    (NewProjection 0 (-45) 180 0 19).yrangeStart 19 = 262144 ∧
    (262144 : ℤ) ≤ (NewProjection 0 (-45) 180 0 19).yrangeEnd 19 := by
  refine ⟨?_, ?_, ?_, ?_⟩
  · unfold Projection.xrangeStart DEFAULT_TILE_SIZE
    rw [c1_box_px0_fst]
    apply goInt_eq_int
    push_cast
    norm_num
  · unfold Projection.xrangeEnd DEFAULT_TILE_SIZE
    rw [c1_box_px1_fst]
    apply goInt_eq_int
    push_cast
    norm_num
  · unfold Projection.yrangeStart DEFAULT_TILE_SIZE
    rw [c1_box_px0_snd]
    apply goInt_eq_int
    push_cast
    norm_num
  · unfold Projection.yrangeEnd DEFAULT_TILE_SIZE
    have h := c1_box_px1_snd_ge
    have hpos : 0 ≤ ((NewProjection 0 (-45) 180 0 19).px1 19).2 / 256 := by
      apply div_nonneg _ (by norm_num)
      calc (0 : ℝ) ≤ ((67108864 : ℤ) : ℝ) := by norm_num
        _ ≤ _ := h
    rw [goInt_eq_floor hpos, Int.le_floor, le_div_iff (by norm_num)]
    push_cast at h ⊢
    linarith

lemma c1_box_tile_mem :
    (⟨19, 524288, 262144, []⟩ : Tile) ∈ (NewProjection 0 (-45) 180 0 19).TileList := by
  rw [mem_TileList]
  refine ⟨19, ?_, ?_⟩
  · rw [show (NewProjection 0 (-45) 180 0 19).levels = intRange 19 MAX_ZOOM_LEVEL from rfl]
    exact mem_intRange.2 ⟨le_refl 19, by decide⟩
  · rw [mem_tilesAtZoom]
    obtain ⟨hx1, hx2, hy1, hy2⟩ := c1_box_bounds
    refine ⟨rfl, rfl, ?_, ?_, ?_, ?_, ?_, ?_⟩
    · rw [hx1]
      norm_num
    · rw [hx2]
    · unfold outOfGrid
      push_neg
      constructor
      · norm_num
      · norm_num
    · rw [hy1]
    · exact hy2
    · unfold outOfGrid
      push_neg
      constructor
      · norm_num
      · norm_num

/-- C1 is false as stated: with the box (0, -45, 180, 0) at requested
zoom 19 the enumerator emits the tile with column 2^19 = 524288, which
violates the strict bound column < 2^19. -/
theorem C1_counterexample :
    (⟨19, 524288, 262144, []⟩ : Tile) ∈ (NewProjection 0 (-45) 180 0 19).TileList ∧
    ¬ ((524288 : ℤ) < 2 ^ (19 : ℕ)) :=
  ⟨c1_box_tile_mem, by norm_num⟩

/-- Witness for C1 (amended) at the emitted tile (19, 524288, 262144). -/
theorem C1_emitted_tile_bounds_witness :
    0 ≤ (524288 : ℤ) ∧ ((524288 : ℤ) : ℝ) ≤ 2 ^ (19 : ℤ) ∧
    0 ≤ (262144 : ℤ) ∧ ((262144 : ℤ) : ℝ) ≤ 2 ^ (19 : ℤ) :=
  C1_emitted_tile_bounds 0 (-45) 180 0 19 ⟨19, 524288, 262144, []⟩ c1_box_tile_mem

end Mbtilego
